import Mathlib

/-!
Verification of the CPE-Chatbot-Prototype retrieval-and-answer pipeline.

The definitions below are a shallow embedding of `query_data.py` and
`create_database.py`.  External collaborators (the Chroma index, the BM25
ensemble retriever, and the chat model) are modelled as abstract functions
bundled in an `Env` record; everything the Python code computes itself
(query expansion, language detection, relevance gating, prompt assembly,
source formatting, chunk enrichment) is translated directly.

Python string containment (`pat in s`) is modelled by `containsSub`,
`str.lower()` by the ASCII lowering `lowerStr` (the trigger patterns are
ASCII/Thai, where Python's Unicode lowering agrees), `str.rstrip()` /
`str.strip()` by `rstripStr` / `stripStr`, and `sep.join(xs)` by `joinSep`.
Relevance scores (Python floats, used only via `<`) are modelled as `Rat`.
-/

/-- Tests whether the character list `p` starts the list `h`. -/
def beginsWith : List Char → List Char → Bool
  | [], _ => true
  | _ :: _, [] => false
  | p :: ps, h :: hs => p == h && beginsWith ps hs

/-- Python's `pat in hay` on character lists. -/
def containsL : List Char → List Char → Bool
  | [], pat => beginsWith pat []
  | h :: t, pat => beginsWith pat (h :: t) || containsL t pat

/-- Python `pat in s` for strings. -/
def containsSub (s pat : String) : Bool :=
  containsL s.data pat.data

/-- Every character is below the Thai block (all hint strings satisfy this). -/
def asciiStr (s : String) : Bool :=
  s.data.all (fun c => decide (c.toNat < 0xE00))

/-- Some character lies in the Thai block (all trigger keys of `th_map`
satisfy this). -/
def hasThaiChar (s : String) : Bool :=
  s.data.any (fun c => decide (0xE00 ≤ c.toNat))

/-- ASCII lower-casing of one character (the fragment of `str.lower()` the
trigger patterns exercise). -/
def lowerChar (c : Char) : Char :=
  if 'A' ≤ c ∧ c ≤ 'Z' then Char.ofNat (c.toNat + 32) else c

/-- ASCII lower-casing of a string, modelling `str.lower()`. -/
def lowerStr (s : String) : String :=
  ⟨s.data.map lowerChar⟩

/-- Python `sep.join(xs)`. -/
def joinSep (sep : String) : List String → String
  | [] => ""
  | [x] => x
  | x :: y :: xs => x ++ sep ++ joinSep sep (y :: xs)

/-- Split a character list at every character satisfying `p`, keeping empty
parts (the semantics of Python's `str.split(sep)` per separator occurrence). -/
def splitWhen (p : Char → Bool) : List Char → List (List Char)
  | [] => [[]]
  | c :: t =>
    match splitWhen p t with
    | [] => [[]]
    | r :: rs => if p c then [] :: r :: rs else (c :: r) :: rs

/-- Drop leading characters satisfying `Char.isWhitespace` (one side of
Python's `strip`). -/
def dropWsLeft (l : List Char) : List Char :=
  l.dropWhile Char.isWhitespace

/-- Python `str.rstrip()`. -/
def rstripStr (s : String) : String :=
  ⟨(dropWsLeft s.data.reverse).reverse⟩

/-- Python `str.strip()`. -/
def stripStr (s : String) : String :=
  ⟨(dropWsLeft (dropWsLeft s.data).reverse).reverse⟩

/-- A retrieved document: `page_content` plus the metadata keys the pipeline
reads.  `none` models an absent (or `None`) metadata entry. -/
structure Doc where
  page_content : String
  title : Option String := none
  «section» : Option String := none
  question : Option String := none
  source : Option String := none
deriving DecidableEq

/-- Python `md.get(key, "") or ""`: an absent or falsy metadata value
becomes the empty string. -/
def getMeta (o : Option String) : String :=
  match o with
  | none => ""
  | some s => s

/-- One rendered citation line: `f"• {t} › {s} ({src})".strip()`. -/
def renderLine (d : Doc) : String :=
  stripStr ("• " ++ getMeta d.title ++ " › " ++ getMeta d.«section» ++
    " (" ++ getMeta d.source ++ ")")

/-- Model of `format_sources` from `query_data.py`: one line per document,
deduplicated (first occurrence kept), placeholder when no line was built. -/
def format_sources (docs : List Doc) : String :=
  let lines := docs.foldl
    (fun acc d =>
      let line := renderLine d
      if acc.contains line then acc else acc ++ [line]) []
  if lines.isEmpty then "• (no sources metadata)" else joinSep "\n" lines

/-- The Thai→English hint table of `expand_query` (insertion order of the
Python dict). -/
def th_map : List (String × String) :=
  [("ใบมอบอำนาจ", "Power of Attorney"),
   ("บัตรนิสิต", "student card"),
   ("นักศึกษา", "student"),
   ("ทำบัตร", "student card"),
   ("ลงทะเบียน", "registration"),
   ("โปรแกรม", "program (major)"),
   ("ผลคะแนนอังกฤษ", "English score"),
   ("ทะเบียน", "registrar")]

/-- The list `expansions` that `expand_query` accumulates for a query. -/
def expandHints (query : String) : List String :=
  let lq := lowerStr query
  ((if containsSub lq "transcript" && !containsSub lq "certificate" then
      ["Transcript/Certificate"] else [])
   ++ (if containsSub lq "power of attorney" then
      ["Power of Attorney form"] else [])
   ++ (if containsSub lq "student card" then
      ["student card / citizen ID / passport"] else []))
  ++ th_map.filterMap (fun pr =>
      if containsSub query pr.1 && !containsSub lq (lowerStr pr.2) then
        some pr.2 else none)

/-- Model of `expand_query` from `query_data.py`: append matched hints in a single
parenthetical suffix, or return the query unchanged. -/
def expand_query (query : String) : String :=
  let expansions := expandHints query
  if expansions.isEmpty then query
  else query ++ " (" ++ joinSep ", " expansions ++ ")"

/-- Model of `is_thai`: the Thai-block regex finds a match. -/
def is_thai (text : String) : Bool :=
  text.data.any (fun c => decide (0xE00 ≤ c.toNat ∧ c.toNat ≤ 0xE7F))

/-- Model of `make_lang_instruction` from `query_data.py`. -/
def make_lang_instruction (reply_lang : String) (question : String) : String :=
  if reply_lang = "th" then "Reply in Thai."
  else if reply_lang = "en" then "Reply in English."
  else if is_thai question then "Reply in Thai." else "Reply in English."

/-- The sentinel fallback answer. -/
def sentinelMsg : String := "Ask CPE/DE Secretary for more information"

/-- The text of `PROMPT_TEMPLATE` with its three holes filled, modelling
`ChatPromptTemplate.from_template(PROMPT_TEMPLATE).format(...)`. -/
def formatPrompt (context question lang_instruction : String) : String :=
  "You are an academic support assistant for SIIT students.\nUse ONLY the provided context to answer.\n"
  ++ lang_instruction
  ++ "\n\nContext:\n" ++ context
  ++ "\n\n---\nStudent question: " ++ question
  ++ "\n\nRules:\n- If the answer is in context: reply concisely in bullet points, include any relevant links and a short \"Next steps\".\n- If NOT in context: reply exactly with:\n  Ask CPE/DE Secretary for more information\n- Always end with a short \"Sources\" section listing the FAQ titles/sections.\n\nReturn format (Markdown):\n- **Answer:** ...\n- **Next steps:** ...\n- **Sources:** • <title> › <section> (file)"

/-- The external collaborators of `run_query`: the Chroma collection
(`allDocs` is `db.get(...)`, `search` is
`similarity_search_with_relevance_scores` at a given `k`), the ensemble
retriever's `invoke`, and the chat model (`model name → prompt → content`). -/
structure Env where
  allDocs : List Doc
  ensembleInvoke : String → List Doc
  search : String → Nat → List (Doc × Rat)
  model : String → String → String

/-- The two shapes `build_retriever` can return. -/
inductive Retriever where
  | vector
  | ensemble
deriving DecidableEq

/-- Model of `build_retriever` from `query_data.py` (reduced to which variant is
returned; `k` does not influence the choice). -/
def build_retriever (allDocs : List Doc) (use_bm25 : Bool) : Retriever :=
  if !use_bm25 then .vector
  else if allDocs.isEmpty then .vector
  else .ensemble

/-- The vector-mode rejection test `not results or results[0][1] < min_score`. -/
def gateRejects (results : List (Doc × Rat)) (min_score : Rat) : Bool :=
  match results with
  | [] => true
  | (_, s) :: _ => decide (s < min_score)

/-- Instrumented outcome of one `run_query` call: the printed text, the
arguments of every similarity-search call, the number of model invocations,
and the language instruction given to the prompt (if any). -/
structure RunResult where
  output : String
  searches : List String
  modelCalls : Nat
  instructionUsed : Option String
deriving DecidableEq

/-- Steps 4-6 of `run_query`: build the prompt, invoke the model, append a
sources footer when the response lacks one. -/
def composeStep (env : Env) (query_text model_name reply_lang : String)
    (docs : List Doc) (searches : List String) : RunResult :=
  let context_text := joinSep "\n\n---\n\n" (docs.map (·.page_content))
  let lang_instruction := make_lang_instruction reply_lang query_text
  let prompt := formatPrompt context_text query_text lang_instruction
  let answer := env.model model_name prompt
  let src_md := format_sources docs
  let answer' :=
    if containsSub answer "**Sources:**" then answer
    else rstripStr answer ++ "\n\n**Sources:**\n" ++ src_md
  ⟨answer', searches, 1, some lang_instruction⟩

/-- Model of `run_query` from `query_data.py`.  The Chroma handle is `env`; printing
is modelled by returning the printed text in `output`. -/
def run_query (env : Env) (query_text model_name : String) (k : Nat)
    (min_score : Rat) (use_bm25 : Bool) (reply_lang : String) : RunResult :=
  let retriever := build_retriever env.allDocs use_bm25
  let q := expand_query query_text
  match retriever with
  | .ensemble =>
    let docs := env.ensembleInvoke q
    if docs.isEmpty then ⟨sentinelMsg, [], 0, none⟩
    else composeStep env query_text model_name reply_lang docs []
  | .vector =>
    let results := env.search q k
    if gateRejects results min_score then
      let retried := decide (q ≠ query_text)
      let results' := if retried then env.search q k else results
      let searches := if retried then [q, q] else [q]
      if gateRejects results' min_score then ⟨sentinelMsg, searches, 0, none⟩
      else composeStep env query_text model_name reply_lang
        (results'.map Prod.fst) searches
    else composeStep env query_text model_name reply_lang
      (results.map Prod.fst) [q]

/-- The document sequence retrieval produces for a request (the merged list
in hybrid mode, the scored hits with scores dropped in vector mode). -/
def mergedDocs (env : Env) (q : String) (k : Nat) (use_bm25 : Bool) : List Doc :=
  match build_retriever env.allDocs use_bm25 with
  | .ensemble => env.ensembleInvoke q
  | .vector => (env.search q k).map Prod.fst

/-- Retrieval evidence is absent: empty hybrid merge, or vector-mode gate
rejection (the retry repeats the identical search, so one rejection test
characterises both attempts). -/
def evidenceAbsent (env : Env) (q : String) (k : Nat) (min_score : Rat)
    (use_bm25 : Bool) : Prop :=
  match build_retriever env.allDocs use_bm25 with
  | .ensemble => env.ensembleInvoke q = []
  | .vector => gateRejects (env.search q k) min_score = true

/-! ## Ingestion (`create_database.py`) -/

/-- An input file as loaded by `DirectoryLoader`: text plus the metadata the
loader may attach. -/
structure RawDoc where
  page_content : String
  source : Option String := none
  file_path : Option String := none
deriving DecidableEq

/-- One piece returned by `MarkdownHeaderTextSplitter.split_text`: content
plus the header metadata actually present (`none` models an absent key). -/
structure RawChunk where
  page_content : String
  title : Option String := none
  «section» : Option String := none
  question : Option String := none
deriving DecidableEq

/-- An enriched chunk as stored by `split_text`. -/
structure Chunk where
  page_content : String
  title : String
  «section» : String
  question : String
  source : String
deriving DecidableEq

/-- Python `a or b` on a possibly-missing string (`None` and `""` are falsy). -/
def orStr (a : Option String) (b : String) : String :=
  match a with
  | none => b
  | some s => if s = "" then b else s

/-- POSIX `os.path.basename`: the part after the last slash. -/
def basename (p : String) : String :=
  ⟨(splitWhen (fun c => c == '/') p.data).getLastD []⟩

/-- The resolution `src = doc.metadata.get("source") or doc.metadata.get("file_path") or ""`. -/
def resolveSrc (d : RawDoc) : String :=
  orStr d.source (orStr d.file_path "")

/-- The cleanup `" ".join(p.page_content.split())`: split on whitespace,
drop empty words, rejoin with single spaces. -/
def squashWs (s : String) : String :=
  joinSep " "
    (((splitWhen Char.isWhitespace s.data).map (fun l => (⟨l⟩ : String))).filter
      (fun w => w ≠ ""))

/-- Enrichment of one splitter part inside `split_text`: attach the source
filename and default the header metadata keys to `""` when absent. -/
def enrichChunk (src_name src : String) (p : RawChunk) : Chunk :=
  { page_content := squashWs p.page_content
  , title := p.title.getD ""
  , «section» := p.«section».getD ""
  , question := p.question.getD ""
  , source := if src_name = "" then src else src_name }

/-- Model of `split_text` from `create_database.py`.  The external
`MarkdownHeaderTextSplitter` is passed in as `splitter`; the final guard
raising `RuntimeError` on an empty chunk list is the `error` branch. -/
def split_text (splitter : String → List RawChunk) (documents : List RawDoc) :
    Except String (List Chunk) :=
  let chunks := documents.flatMap (fun doc =>
    let src := resolveSrc doc
    let src_name := basename src
    (splitter doc.page_content).map (enrichChunk src_name src))
  if chunks.isEmpty then
    Except.error "No chunks produced. Check your Markdown formatting."
  else Except.ok chunks

/-! ## Concrete data used by the witnesses and counterexamples -/

/-- A document with full metadata. -/
def docT : Doc :=
  { page_content := "Transcript requests are made at the registrar."
  , title := some "Transcript"
  , «section» := some "How to request"
  , question := some "How do I request a transcript?"
  , source := some "faq.md" }

/-- A second, differently-labelled document. -/
def docR : Doc :=
  { page_content := "Registration happens online."
  , title := some "Registration"
  , «section» := some "Deadlines"
  , question := none
  , source := some "reg.md" }

/-- A document carrying no metadata at all. -/
def docBare : Doc := { page_content := "orphan text" }

/-- Environment whose model always answers with the sentinel string while
retrieval succeeds with a high-scoring document. -/
def envSentinelModel : Env :=
  { allDocs := [docT]
  , ensembleInvoke := fun _ => [docT]
  , search := fun _ _ => [(docT, 5)]
  , model := fun _ _ => sentinelMsg }

/-- Environment over an empty corpus: every retrieval channel is empty. -/
def envEmpty : Env :=
  { allDocs := []
  , ensembleInvoke := fun _ => []
  , search := fun _ _ => []
  , model := fun _ _ => "unused" }

/-- Environment with a populated corpus and a low-scoring vector channel. -/
def envLowScore : Env :=
  { allDocs := [docT]
  , ensembleInvoke := fun _ => [docT]
  , search := fun _ _ => [(docT, 0)]
  , model := fun _ _ => "- **Answer:** see registrar" }

/-- Splitter used by the ingestion witness: one part with only a `##` header. -/
def splitterW : String → List RawChunk :=
  fun _ => [{ page_content := "pay  the fee", «section» := some "Fees" }]

/-- Input file used by the ingestion witness. -/
def rawDocW : RawDoc :=
  { page_content := "## Fees\npay  the fee", source := some "data/faq.md" }

/-- The chunk `split_text splitterW [rawDocW]` produces. -/
def chunkW : Chunk :=
  { page_content := "pay the fee"
  , title := ""
  , «section» := "Fees"
  , question := ""
  , source := "faq.md" }

/-! ## Substring toolkit -/

theorem beginsWith_iff (p h : List Char) :
    beginsWith p h = true ↔ ∃ t, h = p ++ t := by
  induction p generalizing h with
  | nil => simp [beginsWith]
  | cons a ps ih =>
    cases h with
    | nil => simp [beginsWith]
    | cons b hs =>
      simp only [beginsWith, Bool.and_eq_true, beq_iff_eq, ih, List.cons_append]
      constructor
      · rintro ⟨rfl, t, rfl⟩
        exact ⟨t, rfl⟩
      · rintro ⟨t, ht⟩
        injection ht with h1 h2
        exact ⟨h1.symm, t, h2⟩

theorem containsL_iff (hay pat : List Char) :
    containsL hay pat = true ↔ ∃ x y, hay = x ++ pat ++ y := by
  induction hay with
  | nil =>
    simp only [containsL, beginsWith_iff]
    constructor
    · rintro ⟨t, ht⟩
      exact ⟨[], t, by simpa using ht⟩
    · rintro ⟨x, y, h⟩
      have h' : x = [] ∧ pat = [] ∧ y = [] := by
        simpa [List.append_eq_nil] using h.symm
      obtain ⟨rfl, rfl, rfl⟩ := h'
      exact ⟨[], rfl⟩
  | cons c t ih =>
    simp only [containsL, Bool.or_eq_true, beginsWith_iff, ih]
    constructor
    · rintro (⟨s, hs⟩ | ⟨x, y, rfl⟩)
      · exact ⟨[], s, by simpa using hs⟩
      · exact ⟨c :: x, y, rfl⟩
    · rintro ⟨x, y, hxy⟩
      cases x with
      | nil => exact Or.inl ⟨y, by simpa using hxy⟩
      | cons d x' =>
        injection hxy with h1 h2
        exact Or.inr ⟨x', y, h2⟩

theorem containsL_append_left {a p : List Char} (b : List Char)
    (h : containsL a p = true) : containsL (a ++ b) p = true := by
  rw [containsL_iff] at h ⊢
  obtain ⟨x, y, rfl⟩ := h
  exact ⟨x, y ++ b, by simp⟩

theorem containsL_append_right {b p : List Char} (a : List Char)
    (h : containsL b p = true) : containsL (a ++ b) p = true := by
  rw [containsL_iff] at h ⊢
  obtain ⟨x, y, rfl⟩ := h
  exact ⟨a ++ x, y, by simp⟩

theorem containsL_refl (p : List Char) : containsL p p = true := by
  rw [containsL_iff]
  exact ⟨[], [], by simp⟩

theorem containsL_trans {a b p : List Char} (hab : containsL a b = true)
    (hbp : containsL b p = true) : containsL a p = true := by
  rw [containsL_iff] at hab hbp ⊢
  obtain ⟨x, y, rfl⟩ := hab
  obtain ⟨u, v, rfl⟩ := hbp
  exact ⟨x ++ u, v ++ y, by simp⟩

theorem mem_of_containsL {h p : List Char} {c : Char}
    (hc : containsL h p = true) (hm : c ∈ p) : c ∈ h := by
  rw [containsL_iff] at hc
  obtain ⟨x, y, rfl⟩ := hc
  simp [hm]

theorem containsL_eq_false_of_missing {h p : List Char} {c : Char}
    (hm : c ∈ p) (hc : c ∉ h) : containsL h p = false := by
  by_contra hne
  exact hc (mem_of_containsL (by simpa using hne) hm)

theorem containsL_nil_false {p : List Char} (hp : p ≠ []) :
    containsL [] p = false := by
  cases p with
  | nil => exact absurd rfl hp
  | cons c t => rfl

theorem containsL_append_split {a b p : List Char}
    (h : containsL (a ++ b) p = true) :
    containsL a p = true ∨ containsL b p = true ∨
      ∃ p₁ p₂, p = p₁ ++ p₂ ∧ p₁ ≠ [] ∧ p₂ ≠ [] ∧
        (∃ x, a = x ++ p₁) ∧ ∃ y, b = p₂ ++ y := by
  rw [containsL_iff] at h
  obtain ⟨x, y, hxy⟩ := h
  rcases List.append_eq_append_iff.1 hxy with ⟨l, hxp, hb⟩ | ⟨l, ha, hy⟩
  · rcases List.append_eq_append_iff.1 hxp with ⟨m, ham, hpm⟩ | ⟨m, hx, hlm⟩
    · rcases eq_or_ne l [] with rfl | hl
      · refine Or.inl ?_
        rw [containsL_iff]
        exact ⟨x, [], by simp [ham, hpm]⟩
      · rcases eq_or_ne m [] with rfl | hm
        · refine Or.inr (Or.inl ?_)
          rw [containsL_iff]
          exact ⟨[], y, by simp [hb, hpm]⟩
        · exact Or.inr (Or.inr ⟨m, l, hpm, hm, hl, ⟨x, ham⟩, ⟨y, hb⟩⟩)
    · refine Or.inr (Or.inl ?_)
      rw [containsL_iff]
      exact ⟨m, y, by simp [hb, hlm]⟩
  · refine Or.inl ?_
    rw [containsL_iff]
    exact ⟨x, l, by simpa using ha⟩

theorem containsL_append_head_false {a t p : List Char} {c : Char}
    (ha : containsL a p = false) (hb : containsL (c :: t) p = false)
    (hc : c ∉ p) : containsL (a ++ c :: t) p = false := by
  by_contra hne
  replace hne : containsL (a ++ c :: t) p = true := by simpa using hne
  rcases containsL_append_split hne with h | h | ⟨p₁, p₂, hp, _, hp₂, _, y, hy⟩
  · rw [h] at ha
    exact Bool.noConfusion ha
  · rw [h] at hb
    exact Bool.noConfusion hb
  · cases p₂ with
    | nil => exact hp₂ rfl
    | cons d p₂' =>
      injection hy with h1 h2
      exact hc (by simp [hp, ← h1])

theorem containsL_append_two_false {a t p : List Char} {c₁ c₂ : Char}
    (ha : containsL a p = false) (hb : containsL (c₁ :: c₂ :: t) p = false)
    (hc : c₂ ∉ p) (hlast : p.getLast? ≠ some c₁) :
    containsL (a ++ c₁ :: c₂ :: t) p = false := by
  by_contra hne
  replace hne : containsL (a ++ c₁ :: c₂ :: t) p = true := by simpa using hne
  rcases containsL_append_split hne with h | h | ⟨p₁, p₂, hp, _, hp₂, _, y, hy⟩
  · rw [h] at ha
    simp at ha
  · rw [h] at hb
    simp at hb
  · cases p₂ with
    | nil => exact hp₂ rfl
    | cons d p₂' =>
      injection hy with h1 h2
      cases p₂' with
      | nil =>
        apply hlast
        rw [hp, h1]
        exact List.getLast?_concat _
      | cons e p₂'' =>
        injection h2 with h3 h4
        exact hc (by simp [hp, ← h3])

theorem containsL_cons_of_head_ne {t p : List Char} {c : Char}
    (h : p.head? ≠ some c) (hp : p ≠ []) :
    containsL (c :: t) p = containsL t p := by
  cases p with
  | nil => exact absurd rfl hp
  | cons d p' =>
    have hd : (d == c) = false := by
      rw [beq_eq_false_iff_ne]
      intro h'
      exact h (by simp [h'])
    simp [containsL, beginsWith, hd]

/-! ## String-level wrappers -/

theorem strData_append (a b : String) : (a ++ b).data = a.data ++ b.data := by
  cases a
  cases b
  rfl

theorem containsSub_append_left {a p : String} (b : String)
    (h : containsSub a p = true) : containsSub (a ++ b) p = true := by
  unfold containsSub at h ⊢
  rw [strData_append]
  exact containsL_append_left _ h

theorem containsSub_append_right {b p : String} (a : String)
    (h : containsSub b p = true) : containsSub (a ++ b) p = true := by
  unfold containsSub at h ⊢
  rw [strData_append]
  exact containsL_append_right _ h

theorem lowerStr_append (a b : String) :
    lowerStr (a ++ b) = lowerStr a ++ lowerStr b := by
  unfold lowerStr
  rw [strData_append, List.map_append]
  rfl

theorem lowerStr_joinSep (hs : List String) :
    lowerStr (joinSep ", " hs) = joinSep ", " (hs.map lowerStr) := by
  induction hs with
  | nil => rfl
  | cons x xs ih =>
    cases xs with
    | nil => rfl
    | cons y ys =>
      show lowerStr (x ++ ", " ++ joinSep ", " (y :: ys)) = _
      rw [lowerStr_append, lowerStr_append, ih]
      rfl

/-- Data of the appended hint suffix `" (" ++ J ++ ")"`, split at the two
boundary characters. -/
theorem suffix_data (J : String) :
    (" (" ++ J ++ ")").data = ' ' :: '(' :: (J.data ++ [')']) := by
  rw [strData_append, strData_append]
  rfl

/-- The join of hint strings does not contain a pattern that none of the
hints contains, provided the pattern cannot overlap the `", "` separators. -/
theorem joinSep_contains_false (hints : List String) (p : List Char)
    (hne : p ≠ []) (hcomma : ',' ∉ p) (hsp : p.head? ≠ some ' ')
    (hh : ∀ h ∈ hints, containsL h.data p = false) :
    containsL (joinSep ", " hints).data p = false := by
  induction hints with
  | nil => exact containsL_nil_false hne
  | cons x xs ih =>
    cases xs with
    | nil => exact hh x (by simp)
    | cons y ys =>
      show containsL (x ++ ", " ++ joinSep ", " (y :: ys)).data p = false
      have hcne : p.head? ≠ some ',' := by
        intro h
        cases p with
        | nil => exact hne rfl
        | cons c t =>
          injection h with h'
          exact hcomma (by simp [h'])
      rw [strData_append, strData_append, List.append_assoc]
      have hd : (", " : String).data = [',', ' '] := rfl
      rw [hd]
      apply containsL_append_head_false (hh x (by simp)) _ hcomma
      show containsL (',' :: ' ' :: (joinSep ", " (y :: ys)).data) p = false
      rw [containsL_cons_of_head_ne hcne hne,
        containsL_cons_of_head_ne hsp hne]
      exact ih (fun h hm => hh h (by simp [hm]))

theorem head_ne_of_not_mem {p : List Char} {c : Char}
    (hne : p ≠ []) (hc : c ∉ p) : p.head? ≠ some c := by
  cases p with
  | nil => exact absurd rfl hne
  | cons d t =>
    intro hx
    injection hx with hx
    exact hc (hx ▸ List.mem_cons_self d t)

/-- A pattern that occurs neither in the query nor in any hint, and that
cannot straddle the `" ("`, `", "` and `")"` punctuation of the appended
suffix, does not occur in the expanded query. -/
theorem containsSub_expanded_false (q p : String) (hints : List String)
    (hq : containsSub q p = false)
    (hh : ∀ h ∈ hints, containsL h.data p.data = false)
    (hne : p.data ≠ []) (hcomma : ',' ∉ p.data) (hpar : '(' ∉ p.data)
    (hrpar : ')' ∉ p.data) (hhead : p.data.head? ≠ some ' ')
    (hlast : p.data.getLast? ≠ some ' ') :
    containsSub (q ++ " (" ++ joinSep ", " hints ++ ")") p = false := by
  have hJ : containsL (joinSep ", " hints).data p.data = false :=
    joinSep_contains_false hints p.data hne hcomma hhead hh
  have hRp : containsL [')'] p.data = false := by
    rw [show ([')'] : List Char) = ')' :: [] from rfl,
      containsL_cons_of_head_ne (head_ne_of_not_mem hne hrpar) hne]
    exact containsL_nil_false hne
  have hJr : containsL ((joinSep ", " hints).data ++ [')']) p.data = false :=
    containsL_append_head_false hJ hRp hrpar
  have hsfx : containsL (' ' :: '(' ::
      ((joinSep ", " hints).data ++ [')'])) p.data = false := by
    rw [containsL_cons_of_head_ne hhead hne,
      containsL_cons_of_head_ne (head_ne_of_not_mem hne hpar) hne]
    exact hJr
  unfold containsSub
  have hshape : (q ++ " (" ++ joinSep ", " hints ++ ")").data =
      q.data ++ ' ' :: '(' :: ((joinSep ", " hints).data ++ [')']) := by
    rw [strData_append, strData_append, strData_append]
    simp
  rw [hshape]
  exact containsL_append_two_false hq hsfx hpar hlast

theorem joinSep_mem_decomp (hints : List String) (h : String) (hm : h ∈ hints) :
    ∃ x y : List Char, (joinSep ", " hints).data = x ++ h.data ++ y := by
  induction hints with
  | nil => simp at hm
  | cons a xs ih =>
    cases xs with
    | nil =>
      rcases List.mem_singleton.1 hm with rfl
      exact ⟨[], [], by simp [joinSep]⟩
    | cons b ys =>
      rcases List.mem_cons.1 hm with rfl | hm'
      · refine ⟨[], (", " ++ joinSep ", " (b :: ys)).data, ?_⟩
        show (h ++ ", " ++ joinSep ", " (b :: ys)).data = _
        rw [strData_append, strData_append, strData_append]
        simp
      · obtain ⟨x, y, hxy⟩ := ih hm'
        refine ⟨a.data ++ [',', ' '] ++ x, y, ?_⟩
        show (a ++ ", " ++ joinSep ", " (b :: ys)).data = _
        rw [strData_append, strData_append, hxy]
        simp

/-- A pattern occurring in one of the hints occurs in the expanded query. -/
theorem containsSub_expanded_of_hint (q : String) (h p : String)
    (hints : List String) (hm : h ∈ hints)
    (hc : containsL h.data p.data = true) :
    containsSub (q ++ " (" ++ joinSep ", " hints ++ ")") p = true := by
  obtain ⟨x, y, hxy⟩ := joinSep_mem_decomp hints h hm
  unfold containsSub
  rw [strData_append, strData_append, strData_append]
  apply containsL_append_left
  apply containsL_append_right
  rw [hxy]
  apply containsL_append_left
  exact containsL_append_right _ hc

theorem lowerStr_expanded (q : String) (hints : List String) :
    lowerStr (q ++ " (" ++ joinSep ", " hints ++ ")") =
      lowerStr q ++ " (" ++ joinSep ", " (hints.map lowerStr) ++ ")" := by
  rw [lowerStr_append, lowerStr_append, lowerStr_append, lowerStr_joinSep]
  rfl

theorem contains_lower_expanded_left (q p : String) (hints : List String)
    (hc : containsSub (lowerStr q) p = true) :
    containsSub (lowerStr (q ++ " (" ++ joinSep ", " hints ++ ")")) p = true := by
  rw [lowerStr_expanded]
  exact containsSub_append_left _ (containsSub_append_left _
    (containsSub_append_left _ hc))

theorem contains_lower_expanded_hint (q p h : String) (hints : List String)
    (hm : h ∈ hints) (hc : containsL (lowerStr h).data p.data = true) :
    containsSub (lowerStr (q ++ " (" ++ joinSep ", " hints ++ ")")) p = true := by
  rw [lowerStr_expanded]
  exact containsSub_expanded_of_hint _ (lowerStr h) _ _
    (List.mem_map_of_mem _ hm) hc

theorem contains_lower_expanded_false (q p : String) (hints : List String)
    (hq : containsSub (lowerStr q) p = false)
    (hh : ∀ h ∈ hints, containsL (lowerStr h).data p.data = false)
    (hne : p.data ≠ []) (hcomma : ',' ∉ p.data) (hpar : '(' ∉ p.data)
    (hrpar : ')' ∉ p.data) (hhead : p.data.head? ≠ some ' ')
    (hlast : p.data.getLast? ≠ some ' ') :
    containsSub (lowerStr (q ++ " (" ++ joinSep ", " hints ++ ")")) p = false := by
  rw [lowerStr_expanded]
  apply containsSub_expanded_false _ _ _ hq ?_ hne hcomma hpar hrpar hhead hlast
  intro h' hm'
  obtain ⟨h, hm, rfl⟩ := List.mem_map.1 hm'
  exact hh h hm

/-! ## Structure of the expansion hint list -/

theorem mem_expandHints (q h : String) (hm : h ∈ expandHints q) :
    (h = "Transcript/Certificate"
      ∧ containsSub (lowerStr q) "transcript" = true
      ∧ containsSub (lowerStr q) "certificate" = false)
    ∨ (h = "Power of Attorney form"
      ∧ containsSub (lowerStr q) "power of attorney" = true)
    ∨ (h = "student card / citizen ID / passport"
      ∧ containsSub (lowerStr q) "student card" = true)
    ∨ (∃ pr, pr ∈ th_map ∧ h = pr.2 ∧ containsSub q pr.1 = true
      ∧ containsSub (lowerStr q) (lowerStr pr.2) = false) := by
  unfold expandHints at hm
  simp only [List.mem_append, List.mem_filterMap] at hm
  rcases hm with ((h1 | h2) | h3) | ⟨pr, hpr, hif⟩
  · refine Or.inl ?_
    split at h1
    · next hcond =>
      rw [Bool.and_eq_true] at hcond
      obtain ⟨hA, hB⟩ := hcond
      rw [Bool.not_eq_true'] at hB
      exact ⟨List.mem_singleton.1 h1, hA, hB⟩
    · simp at h1
  · refine Or.inr (Or.inl ?_)
    split at h2
    · next hcond => exact ⟨List.mem_singleton.1 h2, hcond⟩
    · simp at h2
  · refine Or.inr (Or.inr (Or.inl ?_))
    split at h3
    · next hcond => exact ⟨List.mem_singleton.1 h3, hcond⟩
    · simp at h3
  · refine Or.inr (Or.inr (Or.inr ?_))
    split at hif
    · next hcond =>
      rw [Bool.and_eq_true] at hcond
      obtain ⟨hc, hd⟩ := hcond
      injection hif with hif
      rw [Bool.not_eq_true'] at hd
      exact ⟨pr, hpr, hif.symm, hc, hd⟩
    · exact absurd hif (by simp)

theorem transcript_hint_mem (q : String)
    (hA : containsSub (lowerStr q) "transcript" = true)
    (hB : containsSub (lowerStr q) "certificate" = false) :
    "Transcript/Certificate" ∈ expandHints q := by
  unfold expandHints
  simp [hA, hB]

theorem th_hint_mem (q th en : String) (hpr : (th, en) ∈ th_map)
    (hc : containsSub q th = true)
    (hd : containsSub (lowerStr q) (lowerStr en) = false) :
    en ∈ expandHints q := by
  unfold expandHints
  simp only [List.mem_append, List.mem_filterMap]
  refine Or.inr ⟨(th, en), hpr, ?_⟩
  simp [hc, hd]

theorem contains_false_of_ascii_vs_thai (h p : String)
    (hasc : asciiStr h = true) (hth : hasThaiChar p = true) :
    containsL h.data p.data = false := by
  unfold hasThaiChar at hth
  rw [List.any_eq_true] at hth
  obtain ⟨c, hcp, hc⟩ := hth
  apply containsL_eq_false_of_missing hcp
  intro hch
  unfold asciiStr at hasc
  rw [List.all_eq_true] at hasc
  have h1 := hasc c hch
  simp only [decide_eq_true_eq] at h1 hc
  omega

theorem expandHints_ascii (q : String) :
    ∀ h ∈ expandHints q, asciiStr h = true := by
  intro h hm
  rcases mem_expandHints q h hm with ⟨rfl, _, _⟩ | ⟨rfl, _⟩ | ⟨rfl, _⟩ |
    ⟨pr, hpr, rfl, _, _⟩
  · decide
  · decide
  · decide
  · simp only [th_map, List.mem_cons, List.not_mem_nil, or_false] at hpr
    rcases hpr with rfl | rfl | rfl | rfl | rfl | rfl | rfl | rfl <;> decide

theorem expandHints_lower_clear_poa (q : String)
    (h1 : containsSub (lowerStr q) "power of attorney" = false)
    (h3 : containsSub q "ใบมอบอำนาจ" = false) :
    ∀ h ∈ expandHints q,
      containsL (lowerStr h).data ("power of attorney" : String).data = false := by
  intro h hm
  rcases mem_expandHints q h hm with ⟨rfl, _, _⟩ | ⟨rfl, hcond⟩ | ⟨rfl, _⟩ |
    ⟨pr, hpr, rfl, hcond, _⟩
  · decide
  · rw [h1] at hcond
    exact Bool.noConfusion hcond
  · decide
  · simp only [th_map, List.mem_cons, List.not_mem_nil, or_false] at hpr
    rcases hpr with rfl | rfl | rfl | rfl | rfl | rfl | rfl | rfl
    · rw [h3] at hcond
      exact Bool.noConfusion hcond
    · decide
    · decide
    · decide
    · decide
    · decide
    · decide
    · decide

theorem expandHints_lower_clear_card (q : String)
    (h2 : containsSub (lowerStr q) "student card" = false)
    (h4 : containsSub q "บัตรนิสิต" = false)
    (h5 : containsSub q "ทำบัตร" = false) :
    ∀ h ∈ expandHints q,
      containsL (lowerStr h).data ("student card" : String).data = false := by
  intro h hm
  rcases mem_expandHints q h hm with ⟨rfl, _, _⟩ | ⟨rfl, _⟩ | ⟨rfl, hcond⟩ |
    ⟨pr, hpr, rfl, hcond, _⟩
  · decide
  · decide
  · rw [h2] at hcond
    exact Bool.noConfusion hcond
  · simp only [th_map, List.mem_cons, List.not_mem_nil, or_false] at hpr
    rcases hpr with rfl | rfl | rfl | rfl | rfl | rfl | rfl | rfl
    · decide
    · rw [h4] at hcond
      exact Bool.noConfusion hcond
    · decide
    · rw [h5] at hcond
      exact Bool.noConfusion hcond
    · decide
    · decide
    · decide
    · decide

theorem expandHints_lower_clear_transcript (q : String)
    (hA : containsSub (lowerStr q) "transcript" = false) :
    ∀ h ∈ expandHints q,
      containsL (lowerStr h).data ("transcript" : String).data = false := by
  intro h hm
  rcases mem_expandHints q h hm with ⟨rfl, hcond, _⟩ | ⟨rfl, _⟩ | ⟨rfl, _⟩ |
    ⟨pr, hpr, rfl, _, _⟩
  · rw [hA] at hcond
    exact Bool.noConfusion hcond
  · decide
  · decide
  · simp only [th_map, List.mem_cons, List.not_mem_nil, or_false] at hpr
    rcases hpr with rfl | rfl | rfl | rfl | rfl | rfl | rfl | rfl <;> decide

/-- One Thai trigger pair cannot fire again on an expanded query whose
original query did not already set it up to re-fire. -/
theorem th_pair_contra (q th en : String)
    (hpr : (th, en) ∈ th_map) (hthai : hasThaiChar th = true)
    (hne : th.data ≠ []) (hcomma : ',' ∉ th.data) (hpl : '(' ∉ th.data)
    (hrp : ')' ∉ th.data) (hhd : th.data.head? ≠ some ' ')
    (hlt : th.data.getLast? ≠ some ' ')
    (hc' : containsSub (q ++ " (" ++ joinSep ", " (expandHints q) ++ ")") th = true)
    (hd' : containsSub (lowerStr (q ++ " (" ++ joinSep ", " (expandHints q) ++ ")"))
      (lowerStr en) = false) :
    False := by
  cases hc : containsSub q th with
  | false =>
    have habs := containsSub_expanded_false q th (expandHints q) hc
      (fun h hm => contains_false_of_ascii_vs_thai h th (expandHints_ascii q h hm) hthai)
      hne hcomma hpl hrp hhd hlt
    rw [habs] at hc'
    exact Bool.noConfusion hc'
  | true =>
    cases hd : containsSub (lowerStr q) (lowerStr en) with
    | true =>
      have hper := contains_lower_expanded_left q (lowerStr en) (expandHints q) hd
      rw [hper] at hd'
      exact Bool.noConfusion hd'
    | false =>
      have hper := contains_lower_expanded_hint q (lowerStr en) en (expandHints q)
        (th_hint_mem q th en hpr hc hd) (containsL_refl _)
      rw [hper] at hd'
      exact Bool.noConfusion hd'

/-- C5 (amended): the claim's unrestricted idempotence fails (see the
counterexample below), but expansion is idempotent for every query that
avoids the re-firing trigger substrings "power of attorney" and
"student card" (case-insensitively) and the Thai triggers that introduce
them ("ใบมอบอำนาจ", "บัตรนิสิต", "ทำบัตร"): for all such `q`,
`expand_query (expand_query q) = expand_query q`, so the second pass adds
no further hints. -/
theorem c5_expand_idempotent_amended (q : String)
    (h1 : containsSub (lowerStr q) "power of attorney" = false)
    (h2 : containsSub (lowerStr q) "student card" = false)
    (h3 : containsSub q "ใบมอบอำนาจ" = false)
    (h4 : containsSub q "บัตรนิสิต" = false)
    (h5 : containsSub q "ทำบัตร" = false) :
    expand_query (expand_query q) = expand_query q := by
  by_cases he : expandHints q = []
  · have hq : expand_query q = q := by
      unfold expand_query
      simp [he]
    rw [hq]
    exact hq
  · have hq : expand_query q = q ++ " (" ++ joinSep ", " (expandHints q) ++ ")" := by
      unfold expand_query
      simp [List.isEmpty_iff, he]
    rw [hq]
    have hkey : expandHints (q ++ " (" ++ joinSep ", " (expandHints q) ++ ")") = [] := by
      rw [List.eq_nil_iff_forall_not_mem]
      intro h hm
      rcases mem_expandHints _ h hm with ⟨_, hA', hB'⟩ | ⟨_, hP'⟩ | ⟨_, hC'⟩ |
        ⟨pr, hpr, _, hc', hd'⟩
      · cases hA : containsSub (lowerStr q) "transcript" with
        | false =>
          have habs := contains_lower_expanded_false q "transcript" (expandHints q) hA
            (expandHints_lower_clear_transcript q hA) (by decide) (by decide)
            (by decide) (by decide) (by decide) (by decide)
          rw [habs] at hA'
          exact Bool.noConfusion hA'
        | true =>
          cases hB : containsSub (lowerStr q) "certificate" with
          | true =>
            have hper := contains_lower_expanded_left q "certificate" (expandHints q) hB
            rw [hper] at hB'
            exact Bool.noConfusion hB'
          | false =>
            have hper := contains_lower_expanded_hint q "certificate"
              "Transcript/Certificate" (expandHints q)
              (transcript_hint_mem q hA hB) (by decide)
            rw [hper] at hB'
            exact Bool.noConfusion hB'
      · have habs := contains_lower_expanded_false q "power of attorney"
          (expandHints q) h1 (expandHints_lower_clear_poa q h1 h3) (by decide)
          (by decide) (by decide) (by decide) (by decide) (by decide)
        rw [habs] at hP'
        exact Bool.noConfusion hP'
      · have habs := contains_lower_expanded_false q "student card"
          (expandHints q) h2 (expandHints_lower_clear_card q h2 h4 h5) (by decide)
          (by decide) (by decide) (by decide) (by decide) (by decide)
        rw [habs] at hC'
        exact Bool.noConfusion hC'
      · simp only [th_map, List.mem_cons, List.not_mem_nil, or_false] at hpr
        rcases hpr with rfl | rfl | rfl | rfl | rfl | rfl | rfl | rfl
        · exact th_pair_contra q "ใบมอบอำนาจ" "Power of Attorney" (by simp [th_map])
            (by decide) (by decide) (by decide) (by decide) (by decide)
            (by decide) (by decide) hc' hd'
        · exact th_pair_contra q "บัตรนิสิต" "student card" (by simp [th_map])
            (by decide) (by decide) (by decide) (by decide) (by decide)
            (by decide) (by decide) hc' hd'
        · exact th_pair_contra q "นักศึกษา" "student" (by simp [th_map])
            (by decide) (by decide) (by decide) (by decide) (by decide)
            (by decide) (by decide) hc' hd'
        · exact th_pair_contra q "ทำบัตร" "student card" (by simp [th_map])
            (by decide) (by decide) (by decide) (by decide) (by decide)
            (by decide) (by decide) hc' hd'
        · exact th_pair_contra q "ลงทะเบียน" "registration" (by simp [th_map])
            (by decide) (by decide) (by decide) (by decide) (by decide)
            (by decide) (by decide) hc' hd'
        · exact th_pair_contra q "โปรแกรม" "program (major)" (by simp [th_map])
            (by decide) (by decide) (by decide) (by decide) (by decide)
            (by decide) (by decide) hc' hd'
        · exact th_pair_contra q "ผลคะแนนอังกฤษ" "English score" (by simp [th_map])
            (by decide) (by decide) (by decide) (by decide) (by decide)
            (by decide) (by decide) hc' hd'
        · exact th_pair_contra q "ทะเบียน" "registrar" (by simp [th_map])
            (by decide) (by decide) (by decide) (by decide) (by decide)
            (by decide) (by decide) hc' hd'
    unfold expand_query
    simp [hkey]

/-- C5 counterexample: on the already-expanded query for "power of attorney"
the "power of attorney" trigger fires again, so a second expansion appends
the same hint a second time — `expand_query` is not idempotent as claimed. -/
theorem c5_expand_not_idempotent_cex :
    expand_query "power of attorney" = "power of attorney (Power of Attorney form)"
    ∧ expand_query (expand_query "power of attorney")
      = "power of attorney (Power of Attorney form) (Power of Attorney form)"
    ∧ expand_query (expand_query "power of attorney")
      ≠ expand_query "power of attorney" := by
  refine ⟨by decide, by decide, by decide⟩

/-- Witness for the amended C5 theorem at the concrete query "transcript". -/
theorem c5_expand_idempotent_amended_witness :
    containsSub (lowerStr "transcript") "power of attorney" = false
    ∧ containsSub (lowerStr "transcript") "student card" = false
    ∧ containsSub "transcript" "ใบมอบอำนาจ" = false
    ∧ containsSub "transcript" "บัตรนิสิต" = false
    ∧ containsSub "transcript" "ทำบัตร" = false
    ∧ expand_query (expand_query "transcript") = expand_query "transcript" :=
  ⟨by decide, by decide, by decide, by decide, by decide,
   c5_expand_idempotent_amended "transcript" (by decide) (by decide) (by decide)
     (by decide) (by decide)⟩

/-- C7: `expand_query` is purely additive — with no fired trigger the query
is returned unchanged, otherwise the query is followed by one parenthetical
hint suffix; in every case the input is a prefix of the output. -/
theorem c7_expand_additive (q : String) :
    (expandHints q = [] → expand_query q = q)
    ∧ (expandHints q ≠ [] →
        expand_query q = q ++ (" (" ++ joinSep ", " (expandHints q) ++ ")"))
    ∧ ∃ s, expand_query q = q ++ s := by
  refine ⟨?_, ?_, ?_⟩
  · intro he
    unfold expand_query
    simp [he]
  · intro he
    unfold expand_query
    simp [List.isEmpty_iff, he, String.append_assoc]
  · by_cases he : expandHints q = []
    · refine ⟨"", ?_⟩
      unfold expand_query
      simp [he]
    · refine ⟨" (" ++ joinSep ", " (expandHints q) ++ ")", ?_⟩
      unfold expand_query
      simp [List.isEmpty_iff, he, String.append_assoc]

/-- Witness for C7 at a trigger-free query and at a firing query. -/
theorem c7_expand_additive_witness :
    (expandHints "x" = [] ∧ expand_query "x" = "x")
    ∧ (expandHints "transcript" ≠ [] ∧ expand_query "transcript"
        = "transcript" ++ (" (" ++ joinSep ", " (expandHints "transcript") ++ ")")) :=
  ⟨⟨by decide, (c7_expand_additive "x").1 (by decide)⟩,
   ⟨by decide, (c7_expand_additive "transcript").2.1 (by decide)⟩⟩

/-! ## Composition always carries a Sources marker -/

theorem appended_marker_contains (answer src : String) :
    containsSub (if containsSub answer "**Sources:**" then answer
      else rstripStr answer ++ "\n\n**Sources:**\n" ++ src) "**Sources:**" = true := by
  cases hc : containsSub answer "**Sources:**" with
  | true => simp [hc]
  | false =>
    simp only [hc, Bool.false_eq_true, if_false]
    unfold containsSub
    rw [strData_append, strData_append]
    apply containsL_append_left
    apply containsL_append_right
    decide

theorem composeStep_marker (env : Env) (qt mn rl : String) (docs : List Doc)
    (searches : List String) :
    containsSub (composeStep env qt mn rl docs searches).output "**Sources:**"
      = true := by
  unfold composeStep
  exact appended_marker_contains _ _

theorem sentinel_no_marker : containsSub sentinelMsg "**Sources:**" = false := by
  decide

theorem composeStep_ne_sentinel (env : Env) (qt mn rl : String) (docs : List Doc)
    (searches : List String) :
    (composeStep env qt mn rl docs searches).output ≠ sentinelMsg := by
  intro h
  have h1 := composeStep_marker env qt mn rl docs searches
  rw [h, sentinel_no_marker] at h1
  exact Bool.noConfusion h1

/-- C1 (amended): every run either short-circuits — no model call, output is
exactly the bare sentinel — or invokes the model once and prints an answer
that contains a `**Sources:**` marker.  The second disjunct holds even when
the model's entire answer is the sentinel: the composer then appends the
sources footer to it (the claim's "never decorated" guarantee fails there,
see the counterexample). -/
theorem c1_sources_always_present (env : Env) (qt mn : String) (k : Nat)
    (ms : Rat) (ub : Bool) (rl : String) :
    ((run_query env qt mn k ms ub rl).modelCalls = 0
      ∧ (run_query env qt mn k ms ub rl).output = sentinelMsg)
    ∨ ((run_query env qt mn k ms ub rl).modelCalls = 1
      ∧ containsSub (run_query env qt mn k ms ub rl).output "**Sources:**"
        = true) := by
  cases hre : build_retriever env.allDocs ub with
  | ensemble =>
    simp only [run_query, hre]
    repeat' split
    all_goals
      first
        | exact Or.inl ⟨rfl, rfl⟩
        | exact Or.inr ⟨rfl, composeStep_marker _ _ _ _ _ _⟩
  | vector =>
    simp only [run_query, hre]
    repeat' split
    all_goals
      first
        | exact Or.inl ⟨rfl, rfl⟩
        | exact Or.inr ⟨rfl, composeStep_marker _ _ _ _ _ _⟩

/-- C1 counterexample: with evidence retrieved and the model answering
exactly the sentinel string, the composer decorates the sentinel with a
sources footer, contradicting the claim that the sentinel answer is never
decorated. -/
theorem c1_sentinel_decorated_cex :
    (∀ p : String, envSentinelModel.model "m" p = sentinelMsg)
    ∧ (run_query envSentinelModel "q" "m" 4 1 false "en").modelCalls = 1
    ∧ (run_query envSentinelModel "q" "m" 4 1 false "en").output
      = sentinelMsg ++ "\n\n**Sources:**\n" ++ format_sources [docT]
    ∧ (run_query envSentinelModel "q" "m" 4 1 false "en").output
      ≠ sentinelMsg := by
  refine ⟨fun p => rfl, rfl, by decide, by decide⟩

/-- C3: when retrieval evidence is absent (empty hybrid merge, or vector
gate rejection — the retry reruns the identical search, so it is rejected
too), `run_query` prints exactly the sentinel and never invokes the model. -/
theorem c3_no_model_without_evidence (env : Env) (qt mn : String) (k : Nat)
    (ms : Rat) (ub : Bool) (rl : String)
    (h : evidenceAbsent env (expand_query qt) k ms ub) :
    (run_query env qt mn k ms ub rl).output = sentinelMsg
    ∧ (run_query env qt mn k ms ub rl).modelCalls = 0 := by
  unfold evidenceAbsent at h
  cases hre : build_retriever env.allDocs ub with
  | ensemble =>
    rw [hre] at h
    have hdocs : env.ensembleInvoke (expand_query qt) = [] := h
    simp only [run_query, hre]
    simp [hdocs]
  | vector =>
    rw [hre] at h
    have hgate : gateRejects (env.search (expand_query qt) k) ms = true := h
    simp only [run_query, hre]
    by_cases hch : expand_query qt = qt
    · rw [hch] at hgate
      simp [hgate, hch]
    · simp [hgate, hch]

/-- Witness for C3 over the empty corpus. -/
theorem c3_witness :
    evidenceAbsent envEmpty (expand_query "q") 4 1 false
    ∧ (run_query envEmpty "q" "m" 4 1 false "en").output = sentinelMsg
    ∧ (run_query envEmpty "q" "m" 4 1 false "en").modelCalls = 0 := by
  have h : evidenceAbsent envEmpty (expand_query "q") 4 1 false := by
    show gateRejects (envEmpty.search (expand_query "q") 4) 1 = true
    rfl
  exact ⟨h, (c3_no_model_without_evidence envEmpty "q" "m" 4 1 false "en" h).1,
    (c3_no_model_without_evidence envEmpty "q" "m" 4 1 false "en" h).2⟩

/-- C4: vector-only mode, expansion changed the query, and the (expanded)
query's top relevance score is below `min_score`: the run performs exactly
two similarity searches — both with the expanded query — then prints the
sentinel without a model call. -/
theorem c4_two_searches_then_sentinel (env : Env) (qt mn : String) (k : Nat)
    (ms : Rat) (rl : String)
    (hchanged : expand_query qt ≠ qt)
    (hlow : ∃ d s t, env.search (expand_query qt) k = (d, s) :: t ∧ s < ms) :
    (run_query env qt mn k ms false rl).output = sentinelMsg
    ∧ (run_query env qt mn k ms false rl).searches
      = [expand_query qt, expand_query qt]
    ∧ (run_query env qt mn k ms false rl).modelCalls = 0 := by
  obtain ⟨d, s, t, hres, hs⟩ := hlow
  have hgate : gateRejects (env.search (expand_query qt) k) ms = true := by
    rw [hres]
    unfold gateRejects
    simp [hs]
  have hre : build_retriever env.allDocs false = .vector := rfl
  simp only [run_query, hre]
  simp [hgate, hchanged]

/-- Witness for C4: low-scoring corpus, query "transcript" whose expansion
differs from it. -/
theorem c4_witness :
    expand_query "transcript" ≠ "transcript"
    ∧ (run_query envLowScore "transcript" "m" 4 1 false "en").output = sentinelMsg
    ∧ (run_query envLowScore "transcript" "m" 4 1 false "en").searches
      = [expand_query "transcript", expand_query "transcript"]
    ∧ (run_query envLowScore "transcript" "m" 4 1 false "en").modelCalls = 0 := by
  have hch : expand_query "transcript" ≠ "transcript" := by decide
  have h := c4_two_searches_then_sentinel envLowScore "transcript" "m" 4 1 "en"
    hch ⟨docT, 0, [], rfl, by decide⟩
  exact ⟨hch, h.1, h.2.1, h.2.2⟩

/-- C10: vector-only mode, expansion left the query unchanged, top score
below `min_score`: exactly one similarity search is made (no retry) before
the sentinel is printed. -/
theorem c10_single_search_sentinel (env : Env) (qt mn : String) (k : Nat)
    (ms : Rat) (rl : String)
    (hunch : expand_query qt = qt)
    (hlow : ∃ d s t, env.search qt k = (d, s) :: t ∧ s < ms) :
    (run_query env qt mn k ms false rl).output = sentinelMsg
    ∧ (run_query env qt mn k ms false rl).searches = [qt]
    ∧ (run_query env qt mn k ms false rl).modelCalls = 0 := by
  obtain ⟨d, s, t, hres, hs⟩ := hlow
  have hgate : gateRejects (env.search qt k) ms = true := by
    rw [hres]
    unfold gateRejects
    simp [hs]
  have hre : build_retriever env.allDocs false = .vector := rfl
  simp only [run_query, hre]
  simp [hunch, hgate]

/-- Witness for C10 at the trigger-free query "x". -/
theorem c10_witness :
    expand_query "x" = "x"
    ∧ (run_query envLowScore "x" "m" 4 1 false "en").output = sentinelMsg
    ∧ (run_query envLowScore "x" "m" 4 1 false "en").searches = ["x"]
    ∧ (run_query envLowScore "x" "m" 4 1 false "en").modelCalls = 0 := by
  have hun : expand_query "x" = "x" := by decide
  have h := c10_single_search_sentinel envLowScore "x" "m" 4 1 "en" hun
    ⟨docT, 0, [], rfl, by decide⟩
  exact ⟨hun, h.1, h.2.1, h.2.2⟩

/-- C2: with `use_bm25 = true` the run is entirely independent of
`min_score` (no numeric cutoff is applied), and the sentinel is emitted
exactly when the retrieved document sequence is empty.  The coherence
hypothesis states that searching an empty collection returns nothing —
both retrieval channels read the same Chroma collection. -/
theorem c2_hybrid_no_cutoff (env : Env) (qt mn : String) (k : Nat)
    (rl : String)
    (hco : env.allDocs = [] → ∀ s, env.search s k = [])
    (ms₁ ms₂ : Rat) :
    run_query env qt mn k ms₁ true rl = run_query env qt mn k ms₂ true rl
    ∧ ((run_query env qt mn k ms₁ true rl).output = sentinelMsg
      ↔ mergedDocs env (expand_query qt) k true = []) := by
  cases hD : env.allDocs with
  | nil =>
    have hs : ∀ s, env.search s k = [] := hco hD
    have hre : build_retriever env.allDocs true = .vector := by
      rw [hD]
      rfl
    constructor
    · simp only [run_query, hre]
      simp [hs, gateRejects]
    · simp only [run_query, hre, mergedDocs]
      simp [hs, gateRejects]
  | cons d ds =>
    have hre : build_retriever env.allDocs true = .ensemble := by
      rw [hD]
      rfl
    constructor
    · simp only [run_query, hre]
    · simp only [run_query, hre, mergedDocs]
      cases hdocs : (env.ensembleInvoke (expand_query qt)).isEmpty with
      | true => simp [hdocs, List.isEmpty_iff.1 hdocs]
      | false =>
        have hne := composeStep_ne_sentinel env qt mn rl
          (env.ensembleInvoke (expand_query qt)) []
        have hdne : env.ensembleInvoke (expand_query qt) ≠ [] := by
          intro hh
          rw [hh] at hdocs
          exact Bool.noConfusion hdocs
        simp [hdocs, hne, hdne]

/-- Witness for C2 over a populated corpus at two different cutoffs. -/
theorem c2_witness :
    run_query envLowScore "q" "m" 4 0 true "en"
      = run_query envLowScore "q" "m" 4 7 true "en"
    ∧ ((run_query envLowScore "q" "m" 4 0 true "en").output = sentinelMsg
      ↔ mergedDocs envLowScore (expand_query "q") 4 true = []) :=
  c2_hybrid_no_cutoff envLowScore "q" "m" 4 "en"
    (fun h => List.noConfusion h) 0 7

/-- In every branch of `run_query` that builds a prompt, the language
instruction is computed from the raw `query_text`, never from the expanded
query. -/
theorem run_query_instruction_raw (env : Env) (qt mn : String) (k : Nat)
    (ms : Rat) (ub : Bool) (rl : String) :
    (run_query env qt mn k ms ub rl).instructionUsed = none
    ∨ (run_query env qt mn k ms ub rl).instructionUsed
      = some (make_lang_instruction rl qt) := by
  cases hre : build_retriever env.allDocs ub with
  | ensemble =>
    simp only [run_query, hre]
    repeat' split
    all_goals
      first
        | exact Or.inl rfl
        | exact Or.inr rfl
  | vector =>
    simp only [run_query, hre]
    repeat' split
    all_goals
      first
        | exact Or.inl rfl
        | exact Or.inr rfl

/-- C8: the reply instruction is fixed for the explicit modes, and in auto
mode it is decided by the Thai-script detector: any Thai code point
(U+0E00–U+0E7F) forces the Thai instruction, an all-ASCII question gets the
English one.  Inside `run_query` the detector sees the raw question. -/
theorem c8_lang_instruction (q : String) (env : Env) (mn : String) (k : Nat)
    (ms : Rat) (ub : Bool) (mode : String) :
    make_lang_instruction "th" q = "Reply in Thai."
    ∧ make_lang_instruction "en" q = "Reply in English."
    ∧ ((∃ c ∈ q.data, 0xE00 ≤ c.toNat ∧ c.toNat ≤ 0xE7F) →
        is_thai q = true ∧ make_lang_instruction "auto" q = "Reply in Thai.")
    ∧ ((∀ c ∈ q.data, c.toNat ≤ 127) →
        is_thai q = false ∧ make_lang_instruction "auto" q = "Reply in English.")
    ∧ ((run_query env q mn k ms ub mode).instructionUsed = none
      ∨ (run_query env q mn k ms ub mode).instructionUsed
        = some (make_lang_instruction mode q)) := by
  refine ⟨by simp [make_lang_instruction], by simp [make_lang_instruction],
    ?_, ?_, run_query_instruction_raw env q mn k ms ub mode⟩
  · rintro ⟨c, hc, hr⟩
    have hthai : is_thai q = true := by
      unfold is_thai
      rw [List.any_eq_true]
      exact ⟨c, hc, by simpa using hr⟩
    exact ⟨hthai, by simp [make_lang_instruction, hthai]⟩
  · intro hall
    have hthai : is_thai q = false := by
      unfold is_thai
      rw [List.any_eq_false]
      intro c hc
      have hb := hall c hc
      simp only [decide_eq_true_eq, not_and]
      omega
    exact ⟨hthai, by simp [make_lang_instruction, hthai]⟩

/-- Witness for C8 at a Thai and an all-ASCII question. -/
theorem c8_lang_instruction_witness :
    (is_thai "สวัสดี" = true
      ∧ make_lang_instruction "auto" "สวัสดี" = "Reply in Thai.")
    ∧ (is_thai "hello" = false
      ∧ make_lang_instruction "auto" "hello" = "Reply in English.") :=
  ⟨(c8_lang_instruction "สวัสดี" envEmpty "m" 4 1 false "auto").2.2.1
      (by decide),
   (c8_lang_instruction "hello" envEmpty "m" 4 1 false "auto").2.2.2.1
      (by decide)⟩

/-! ## Sources rendering -/

theorem mem_dropWhile_of_not {p : Char → Bool} {c : Char} {l : List Char}
    (hm : c ∈ l) (hc : p c = false) : c ∈ l.dropWhile p := by
  induction l with
  | nil => simp at hm
  | cons a t ih =>
    rw [List.dropWhile_cons]
    split
    · next ha =>
      rcases List.mem_cons.1 hm with rfl | hm'
      · rw [hc] at ha
        exact Bool.noConfusion ha
      · exact ih hm'
    · exact hm

theorem mem_stripStr {c : Char} {s : String} (hm : c ∈ s.data)
    (hc : c.isWhitespace = false) : c ∈ (stripStr s).data := by
  show c ∈ ((dropWsLeft (dropWsLeft s.data).reverse).reverse : List Char)
  unfold dropWsLeft
  rw [List.mem_reverse]
  exact mem_dropWhile_of_not (List.mem_reverse.2 (mem_dropWhile_of_not hm hc)) hc

theorem renderLine_has_sep (d : Doc) : '›' ∈ (renderLine d).data := by
  unfold renderLine
  apply mem_stripStr ?_ (by decide)
  rw [strData_append, strData_append, strData_append, strData_append,
    strData_append]
  have hm : '›' ∈ (" › " : String).data := by decide
  simp only [List.mem_append]
  exact Or.inl (Or.inl (Or.inl (Or.inl (Or.inr hm))))

theorem format_fold_sep (docs : List Doc) (acc : List String)
    (hacc : ∀ l ∈ acc, '›' ∈ l.data) :
    ∀ l ∈ docs.foldl
      (fun acc d =>
        let line := renderLine d
        if acc.contains line then acc else acc ++ [line]) acc,
      '›' ∈ l.data := by
  induction docs generalizing acc with
  | nil => exact hacc
  | cons d ds ih =>
    simp only [List.foldl_cons]
    apply ih
    intro l hl
    by_cases hc : acc.contains (renderLine d) = true
    · simp only [hc, if_true] at hl
      exact hacc l hl
    · rw [Bool.not_eq_true] at hc
      simp only [hc, Bool.false_eq_true, if_false] at hl
      rcases List.mem_append.1 hl with hl' | hl'
      · exact hacc l hl'
      · rcases List.mem_singleton.1 hl' with rfl
        exact renderLine_has_sep d

theorem format_fold_ne_nil (docs : List Doc) (acc : List String)
    (hacc : acc ≠ []) :
    docs.foldl
      (fun acc d =>
        let line := renderLine d
        if acc.contains line then acc else acc ++ [line]) acc ≠ [] := by
  induction docs generalizing acc with
  | nil => exact hacc
  | cons d ds ih =>
    simp only [List.foldl_cons]
    apply ih
    split
    · exact hacc
    · intro hh
      rcases List.append_eq_nil.1 hh with ⟨_, h2⟩
      exact List.noConfusion h2

theorem joinSep_sep_ne_placeholder (lines : List String) (hne : lines ≠ [])
    (hsep : ∀ l ∈ lines, '›' ∈ l.data) :
    joinSep "\n" lines ≠ "• (no sources metadata)" := by
  cases lines with
  | nil => exact absurd rfl hne
  | cons l0 rest =>
    have h0 : '›' ∈ l0.data := hsep l0 (by simp)
    have hmem : '›' ∈ (joinSep "\n" (l0 :: rest)).data := by
      cases rest with
      | nil => exact h0
      | cons r rs =>
        show '›' ∈ (l0 ++ "\n" ++ joinSep "\n" (r :: rs)).data
        rw [strData_append, strData_append]
        simp only [List.mem_append]
        exact Or.inl (Or.inl h0)
    intro heq
    rw [heq] at hmem
    exact absurd hmem (by decide)

/-- C6 (amended): `format_sources` deduplicates rendered lines preserving
first-seen order — the claim's `[(T1,S1,F1), (T1,S1,F1), (T2,S2,F2)]`
instance yields exactly the two distinct lines, first one first — and it
renders the placeholder exactly when the document list is empty: a
*nonempty* list of metadata-free documents still yields bullet lines (the
claim's "placeholder when no documents have any metadata" fails there,
see the counterexample). -/
theorem c6_format_sources_amended :
    (∀ d1 d2 : Doc, renderLine d1 ≠ renderLine d2 →
      format_sources [d1, d1, d2] = renderLine d1 ++ "\n" ++ renderLine d2)
    ∧ format_sources [] = "• (no sources metadata)"
    ∧ ∀ docs : List Doc, docs ≠ [] →
      format_sources docs ≠ "• (no sources metadata)" := by
  refine ⟨?_, rfl, ?_⟩
  · intro d1 d2 hne
    show (if (([d1, d1, d2].map renderLine).foldl
          (fun acc l => if acc.contains l then acc else acc ++ [l]) []).isEmpty
        then "• (no sources metadata)"
        else joinSep "\n" (([d1, d1, d2].map renderLine).foldl
          (fun acc l => if acc.contains l then acc else acc ++ [l]) []))
      = renderLine d1 ++ "\n" ++ renderLine d2
    simp only [List.map_cons, List.map_nil]
    generalize hg1 : renderLine d1 = l1
    generalize hg2 : renderLine d2 = l2
    rw [hg1, hg2] at hne
    have hb1 : (l1 == l1) = true := beq_self_eq_true _
    have hb2 : (l2 == l1) = false := by
      rw [beq_eq_false_iff_ne]
      exact fun h => hne h.symm
    simp only [List.foldl_cons, List.foldl_nil, List.contains, List.elem,
      hb1, hb2]
    simp [joinSep, String.append_assoc]
  · intro docs hdocs
    unfold format_sources
    have hne : docs.foldl
        (fun acc d =>
          let line := renderLine d
          if acc.contains line then acc else acc ++ [line]) [] ≠ [] := by
      cases docs with
      | nil => exact absurd rfl hdocs
      | cons d ds =>
        simp only [List.foldl_cons]
        apply format_fold_ne_nil
        split
        · next hcc => exact absurd hcc (by simp)
        · simp
    have hsep := format_fold_sep docs [] (by simp)
    have hempty : (docs.foldl
        (fun acc d =>
          let line := renderLine d
          if acc.contains line then acc else acc ++ [line]) []).isEmpty
        = false := by
      rw [List.isEmpty_eq_false]
      exact hne
    simp only [hempty, Bool.false_eq_true, if_false]
    exact joinSep_sep_ne_placeholder _ hne hsep

/-- C6 counterexample: a single document carrying no metadata at all still
renders a bullet line, not the placeholder: the claim's "placeholder when
no documents have any metadata" is false on a nonempty document list. -/
theorem c6_placeholder_cex :
    docBare.title = none ∧ docBare.«section» = none ∧ docBare.source = none
    ∧ format_sources [docBare] = "•  ›  ()"
    ∧ format_sources [docBare] ≠ "• (no sources metadata)" :=
  ⟨rfl, rfl, rfl, by decide, by decide⟩

/-- Witness for C6's amended theorem at two distinct documents. -/
theorem c6_format_sources_amended_witness :
    renderLine docT ≠ renderLine docR
    ∧ format_sources [docT, docT, docR] = renderLine docT ++ "\n" ++ renderLine docR
    ∧ format_sources [] = "• (no sources metadata)"
    ∧ [docT] ≠ ([] : List Doc)
    ∧ format_sources [docT] ≠ "• (no sources metadata)" := by
  have hne : renderLine docT ≠ renderLine docR := by decide
  have hnil : [docT] ≠ ([] : List Doc) := by simp
  exact ⟨hne, c6_format_sources_amended.1 docT docR hne,
    c6_format_sources_amended.2.1, hnil,
    c6_format_sources_amended.2.2 [docT] hnil⟩

/-! ## Ingestion metadata invariant -/

/-- C9: every chunk `split_text` produces comes from enriching one splitter
part of one input file: its `title`/`section`/`question` metadata default
to `""` exactly when the corresponding header is absent, and its `source`
is the (non-empty) basename of the originating file's path whenever the
loader attached a path with a non-empty final component — which
`DirectoryLoader` guarantees for every loaded `*.md` file. -/
theorem c9_chunk_metadata (splitter : String → List RawChunk)
    (documents : List RawDoc) (chunks : List Chunk)
    (hok : split_text splitter documents = Except.ok chunks)
    (hsrc : ∀ d ∈ documents, basename (resolveSrc d) ≠ "") :
    ∀ c ∈ chunks, ∃ d ∈ documents, ∃ p ∈ splitter d.page_content,
      c = enrichChunk (basename (resolveSrc d)) (resolveSrc d) p
      ∧ (p.title = none → c.title = "")
      ∧ (p.«section» = none → c.«section» = "")
      ∧ (p.question = none → c.question = "")
      ∧ (∀ t, p.title = some t → c.title = t)
      ∧ c.source = basename (resolveSrc d)
      ∧ c.source ≠ "" := by
  have hok' : (if (documents.flatMap fun doc =>
        List.map (enrichChunk (basename (resolveSrc doc)) (resolveSrc doc))
          (splitter doc.page_content)).isEmpty = true then
      (Except.error "No chunks produced. Check your Markdown formatting."
        : Except String (List Chunk))
    else Except.ok (documents.flatMap fun doc =>
        List.map (enrichChunk (basename (resolveSrc doc)) (resolveSrc doc))
          (splitter doc.page_content))) = Except.ok chunks := hok
  clear hok
  split at hok'
  · exact absurd hok' (by simp)
  · injection hok' with hok'
    subst hok'
    intro c hc
    rw [List.mem_flatMap] at hc
    obtain ⟨d, hd, hcd⟩ := hc
    rw [List.mem_map] at hcd
    obtain ⟨p, hp, rfl⟩ := hcd
    have hb : basename (resolveSrc d) ≠ "" := hsrc d hd
    refine ⟨d, hd, p, hp, rfl, ?_, ?_, ?_, ?_, ?_, ?_⟩
    · intro ht
      simp [enrichChunk, ht]
    · intro ht
      simp [enrichChunk, ht]
    · intro ht
      simp [enrichChunk, ht]
    · intro t ht
      simp [enrichChunk, ht]
    · simp [enrichChunk, hb]
    · simp [enrichChunk, hb]

/-- Witness for C9 on a one-file corpus whose splitter yields one part with
only a `##` header. -/
theorem c9_chunk_metadata_witness :
    split_text splitterW [rawDocW] = Except.ok [chunkW]
    ∧ ∃ d ∈ [rawDocW], ∃ p ∈ splitterW d.page_content,
      chunkW = enrichChunk (basename (resolveSrc d)) (resolveSrc d) p
      ∧ (p.title = none → chunkW.title = "")
      ∧ (p.«section» = none → chunkW.«section» = "")
      ∧ (p.question = none → chunkW.question = "")
      ∧ (∀ t, p.title = some t → chunkW.title = t)
      ∧ chunkW.source = basename (resolveSrc d)
      ∧ chunkW.source ≠ "" := by
  have hok : split_text splitterW [rawDocW] = Except.ok [chunkW] := by rfl
  refine ⟨hok, c9_chunk_metadata splitterW [rawDocW] [chunkW] hok ?_ chunkW
    (by simp)⟩
  intro d hd
  rcases List.mem_singleton.1 hd with rfl
  decide
